import Mathlib

/-!
Verification of the knowledge-graph build and retrieval subsystem
(`src/services/kg_service.py`, `src/services/kg_retriever_service.py`).

The Python code is shallowly embedded over `ℚ`:

* numeric values (embedding components, similarities, edge weights,
  thresholds) are rationals;
* the floating-point square root used by `np.linalg.norm` is an abstract
  parameter `sqrtFn : ℚ → ℚ` threaded through the definitions (the claims
  never depend on its value beyond `sqrtFn 0 = 0`, which holds for the
  exact float sqrt);
* store RPCs are modelled by explicit table arguments; a fallible RPC is an
  `Except String` value, mirroring a Python call that may raise;
* `numpy` array operations are modelled entry-wise over lists.

Definitions are named after the Python functions they embed.
-/

namespace KG

/-- Dot product of two rational vectors (entrywise product, summed). -/
def dotProduct (u v : List ℚ) : ℚ :=
  (List.zipWith (· * ·) u v).sum

/-- Sum of squares of a vector, i.e. the square of its L2 norm. -/
def sumSq (v : List ℚ) : ℚ := dotProduct v v

/-- `np.linalg.norm(v)` — the L2 norm, with the square root abstracted as
`sqrtFn`. -/
def l2norm (sqrtFn : ℚ → ℚ) (v : List ℚ) : ℚ := sqrtFn (sumSq v)

/-- The norm used as divisor in `_cosine_sim_matrix`: the code replaces a
zero norm by `1.0` (`norms[norms == 0] = 1.0`). -/
def guardedNorm (sqrtFn : ℚ → ℚ) (v : List ℚ) : ℚ :=
  if l2norm sqrtFn v = 0 then 1 else l2norm sqrtFn v

/-- One row of `vectors / norms` in `_cosine_sim_matrix`. -/
def normalizeRow (sqrtFn : ℚ → ℚ) (v : List ℚ) : List ℚ :=
  v.map (· / guardedNorm sqrtFn v)

/-- Entry `(i, j)` of the matrix returned by `_cosine_sim_matrix`
(`v @ v.T` over the normalized rows). -/
def cosine_sim_matrix (sqrtFn : ℚ → ℚ) (rows : List (List ℚ)) (i j : ℕ) : ℚ :=
  dotProduct (normalizeRow sqrtFn (rows.getD i []))
             (normalizeRow sqrtFn (rows.getD j []))

/-- `_safe_preview`: strip, replace newlines by spaces, truncate to 80
characters with an ellipsis. -/
def safe_preview (text : String) : String :=
  let t := (text.trim).replace "\n" " "
  t.take 80 ++ (if 80 < t.length then "…" else "")

/-- The `KGBuildConfig` dataclass. -/
structure KGBuildConfig where
  similarity_threshold : ℚ := 82/100
  max_edges_per_chunk : ℕ := 10
  max_chunks : ℕ := 2000
  batch_size : ℕ := 500
  rel_type : String := "related_to"
deriving DecidableEq, Repr

/-- `_EMBEDDING_DIM` — required embedding dimension. -/
def EMBEDDING_DIM : ℕ := 1536

/-- A row returned by the `fetch_chunks_with_embeddings` RPC.  `embedding`
is `none` when the field is missing or not a list. -/
structure ChunkRow where
  id : String
  content : String
  chunk_index : ℕ
  document_id : String
  embedding : Option (List ℚ)
deriving DecidableEq, Repr

/-- The validity test of the build loop:
`isinstance(emb, list) and len(emb) == _EMBEDDING_DIM`. -/
def chunkEmbeddingValid (c : ChunkRow) : Bool :=
  match c.embedding with
  | some l => l.length == EMBEDDING_DIM
  | none => false

/-- The `valid_chunks` list accumulated by the validation loop. -/
def validChunks (chunks : List ChunkRow) : List ChunkRow :=
  chunks.filter chunkEmbeddingValid

/-- The `valid_embeddings` list accumulated by the validation loop. -/
def validEmbeddings (chunks : List ChunkRow) : List (List ℚ) :=
  (validChunks chunks).map (fun c => c.embedding.getD [])

/-- A node record as written by `upsert_node` during the build. -/
structure KGNode where
  node_key : String
  type_value : String
  name : String
  description : String
  chunk_id : String
  document_id : String
  chunk_index : ℕ
  embedding : Option (List ℚ)
  status : String
deriving DecidableEq, Repr

/-- The node upserted for one valid chunk (step 1 of the build). -/
def chunkToNode (c : ChunkRow) : KGNode where
  node_key := "chunk:" ++ c.id
  type_value := "Chunk"
  name := "Chunk " ++ toString c.chunk_index
  description := safe_preview c.content
  chunk_id := c.id
  document_id := c.document_id
  chunk_index := c.chunk_index
  embedding := c.embedding
  status := "active"

/-- An edge record as written by `upsert_edge` during the build.  `src` and
`dst` are indices into `valid_chunks` (the code maps them to node UUIDs via
`chunk_id_to_node_id`, a bijection on the valid chunks). -/
structure KGEdge where
  src : ℕ
  dst : ℕ
  weight : ℚ
  rel_type : String
deriving DecidableEq, Repr

/-- Insert an element into a list that is sorted descending by `key`,
keeping it sorted. -/
def insertDesc {α : Type} (key : α → ℚ) (a : α) : List α → List α
  | [] => [a]
  | b :: rest => if key b < key a then a :: b :: rest else b :: insertDesc key a rest

/-- Sort a list descending by `key` (a stable sort; models the
`np.argsort(...)[::-1]` of the build and the `order("weight", desc=True)`
of the edge query, whose tie order is unspecified). -/
def sortDesc {α : Type} (key : α → ℚ) (l : List α) : List α :=
  l.foldr (insertDesc key) []

/-- Row `i` of the similarity matrix after `sims_i[i] = -1.0`. -/
def simsRow (sim : ℕ → ℕ → ℚ) (i : ℕ) : ℕ → ℚ :=
  fun j => if j = i then -1 else sim i j

/-- `cand_idx`: indices whose (diagonal-suppressed) similarity to `i` is at
least the threshold, in increasing index order (`np.where`). -/
def candIdx (s : ℕ → ℚ) (thr : ℚ) (n : ℕ) : List ℕ :=
  (List.range n).filter (fun j => decide (thr ≤ s j))

/-- `cand_sorted`: the qualifying indices sorted descending by similarity
and truncated to `max_edges_per_chunk`. -/
def selectNeighbours (sim : ℕ → ℕ → ℚ) (thr : ℚ) (cap n i : ℕ) : List ℕ :=
  (sortDesc (simsRow sim i) (candIdx (simsRow sim i) thr n)).take cap

/-- Step 2 of the build: all edges upserted by the double loop over
`range(n)` and `cand_sorted`, in upsert order. -/
def buildEdges (sim : ℕ → ℕ → ℚ) (n : ℕ) (cfg : KGBuildConfig) : List KGEdge :=
  (List.range n).flatMap (fun i =>
    (selectNeighbours sim cfg.similarity_threshold cfg.max_edges_per_chunk n i).map
      (fun j => ⟨i, j, simsRow sim i j, cfg.rel_type⟩))

/-- The outgoing edges of node `i` among a list of upserted edges. -/
def outEdges (edges : List KGEdge) (i : ℕ) : List KGEdge :=
  edges.filter (fun e => e.src == i)

/-- The neighbours the spec calls qualifying: indices `j ≠ i` whose
similarity to `i` is at least the threshold. -/
def qualifyingNeighbours (sim : ℕ → ℕ → ℚ) (thr : ℚ) (n i : ℕ) : List ℕ :=
  (List.range n).filter (fun j => decide (j ≠ i ∧ thr ≤ sim i j))

/-- The summary dict returned by `build_kg_from_chunk_embeddings`, extended
with the node and edge records the call wrote to the store. -/
structure KGBuildResult where
  chunks_fetched : ℕ
  chunks_valid : ℕ
  chunks_skipped : ℕ
  nodes_upserted : ℕ
  edges_upserted : ℕ
  note : Option String
  nodes : List KGNode
  edges : List KGEdge
deriving DecidableEq, Repr

/-- `build_kg_from_chunk_embeddings` after the paginated fetch: validation,
node upserts, similarity edges, counters.  `chunks` is the fetched list. -/
def build_kg_from_chunk_embeddings (sqrtFn : ℚ → ℚ) (chunks : List ChunkRow)
    (cfg : KGBuildConfig) : KGBuildResult :=
  if chunks = [] then
    ⟨0, 0, 0, 0, 0, some "No embedded chunks found.", [], []⟩
  else
    let valid := validChunks chunks
    let skipped := chunks.length - valid.length
    if valid = [] then
      ⟨chunks.length, 0, skipped, 0, 0, some "No chunks had valid embeddings.", [], []⟩
    else
      let nodes := valid.map chunkToNode
      let sim := cosine_sim_matrix sqrtFn (validEmbeddings chunks)
      let edges := buildEdges sim valid.length cfg
      ⟨chunks.length, valid.length, skipped, nodes.length, edges.length, none, nodes, edges⟩

/-! ### Lemmas about the descending sort -/

theorem mem_insertDesc {α : Type} (key : α → ℚ) (a x : α) (l : List α) :
    x ∈ insertDesc key a l ↔ x = a ∨ x ∈ l := by
  induction l with
  | nil => simp [insertDesc]
  | cons b rest ih =>
      by_cases h : key b < key a
      · simp [insertDesc, h]
      · simp only [insertDesc, if_neg h, List.mem_cons, ih]
        tauto

theorem mem_sortDesc {α : Type} (key : α → ℚ) (x : α) (l : List α) :
    x ∈ sortDesc key l ↔ x ∈ l := by
  induction l with
  | nil => simp [sortDesc]
  | cons b rest ih =>
      simp only [sortDesc, List.foldr_cons] at *
      rw [mem_insertDesc, ih, List.mem_cons]

theorem length_insertDesc {α : Type} (key : α → ℚ) (a : α) (l : List α) :
    (insertDesc key a l).length = l.length + 1 := by
  induction l with
  | nil => rfl
  | cons b rest ih =>
      by_cases h : key b < key a
      · simp [insertDesc, h]
      · simp [insertDesc, h, ih]

theorem length_sortDesc {α : Type} (key : α → ℚ) (l : List α) :
    (sortDesc key l).length = l.length := by
  induction l with
  | nil => rfl
  | cons b rest ih =>
      simp only [sortDesc, List.foldr_cons] at *
      rw [length_insertDesc, ih, List.length_cons]

theorem pairwise_insertDesc {α : Type} (key : α → ℚ) (a : α) (l : List α)
    (h : l.Pairwise (fun x y => key y ≤ key x)) :
    (insertDesc key a l).Pairwise (fun x y => key y ≤ key x) := by
  induction l with
  | nil => simp [insertDesc]
  | cons b rest ih =>
      rcases List.pairwise_cons.mp h with ⟨hb, hrest⟩
      by_cases hba : key b < key a
      · simp only [insertDesc, if_pos hba]
        refine List.pairwise_cons.mpr ⟨?_, h⟩
        intro y hy
        rcases List.mem_cons.mp hy with rfl | hy'
        · exact le_of_lt hba
        · exact le_trans (hb y hy') (le_of_lt hba)
      · simp only [insertDesc, if_neg hba]
        refine List.pairwise_cons.mpr ⟨?_, ih hrest⟩
        intro y hy
        rcases (mem_insertDesc key a y rest).mp hy with rfl | hy'
        · exact le_of_not_lt hba
        · exact hb y hy'

theorem pairwise_sortDesc {α : Type} (key : α → ℚ) (l : List α) :
    (sortDesc key l).Pairwise (fun x y => key y ≤ key x) := by
  induction l with
  | nil => simp [sortDesc]
  | cons b rest ih =>
      simp only [sortDesc, List.foldr_cons] at *
      exact pairwise_insertDesc key b _ ih

/-- In a list sorted descending by `key`, every kept (taken) element has a
key at least as large as every dropped element. -/
theorem key_take_ge_key_drop {α : Type} (key : α → ℚ) (l : List α) (m : ℕ)
    (hl : l.Pairwise (fun x y => key y ≤ key x))
    {a b : α} (ha : a ∈ l.take m) (hb : b ∈ l.drop m) :
    key b ≤ key a := by
  have hsplit : l.take m ++ l.drop m = l := List.take_append_drop m l
  have : (l.take m ++ l.drop m).Pairwise (fun x y => key y ≤ key x) := by
    rw [hsplit]; exact hl
  exact (List.pairwise_append.mp this).2.2 a ha b hb

/-! ### Lemmas about candidate selection and the edge loop -/

theorem mem_candIdx {s : ℕ → ℚ} {thr : ℚ} {n j : ℕ} :
    j ∈ candIdx s thr n ↔ j < n ∧ thr ≤ s j := by
  simp [candIdx, List.mem_filter, List.mem_range]

theorem mem_selectNeighbours {sim : ℕ → ℕ → ℚ} {thr : ℚ} {cap n i j : ℕ}
    (h : j ∈ selectNeighbours sim thr cap n i) :
    j < n ∧ thr ≤ simsRow sim i j := by
  have : j ∈ sortDesc (simsRow sim i) (candIdx (simsRow sim i) thr n) :=
    (List.take_sublist cap _).mem h
  exact mem_candIdx.mp ((mem_sortDesc _ _ _).mp this)

theorem selectNeighbours_ne_self {sim : ℕ → ℕ → ℚ} {thr : ℚ} {cap n i j : ℕ}
    (hthr : -1 < thr) (h : j ∈ selectNeighbours sim thr cap n i) : j ≠ i := by
  intro rfl_ji
  have := (mem_selectNeighbours h).2
  rw [rfl_ji] at this
  simp only [simsRow, if_pos rfl] at this
  exact absurd this (not_le.mpr hthr)

theorem mem_buildEdges {sim : ℕ → ℕ → ℚ} {n : ℕ} {cfg : KGBuildConfig} {e : KGEdge}
    (he : e ∈ buildEdges sim n cfg) :
    ∃ i j : ℕ, i < n ∧ j ∈ selectNeighbours sim cfg.similarity_threshold cfg.max_edges_per_chunk n i ∧
      e = ⟨i, j, simsRow sim i j, cfg.rel_type⟩ := by
  rcases List.mem_flatMap.mp he with ⟨i, hi, hmem⟩
  rcases List.mem_map.mp hmem with ⟨j, hj, rfl⟩
  exact ⟨i, j, List.mem_range.mp hi, hj, rfl⟩

theorem buildEdges_src_lt {sim : ℕ → ℕ → ℚ} {n : ℕ} {cfg : KGBuildConfig} {e : KGEdge}
    (he : e ∈ buildEdges sim n cfg) : e.src < n ∧ e.dst < n := by
  rcases mem_buildEdges he with ⟨i, j, hi, hj, rfl⟩
  exact ⟨hi, (mem_selectNeighbours hj).1⟩

theorem filter_flatMap_src {G : ℕ → List KGEdge}
    (hG : ∀ i' : ℕ, ∀ e ∈ G i', e.src = i') :
    ∀ n i : ℕ, i < n →
      ((List.range n).flatMap G).filter (fun e => e.src == i) = G i := by
  intro n
  induction n with
  | zero => intro i hi; omega
  | succ m ih =>
      intro i hi
      rw [List.range_succ, List.flatMap_append, List.filter_append]
      simp only [List.flatMap_cons, List.flatMap_nil, List.append_nil]
      by_cases hlt : i < m
      · rw [ih i hlt]
        have : (G m).filter (fun e => e.src == i) = [] := by
          rw [List.filter_eq_nil_iff]
          intro e he
          rw [hG m e he]
          simp only [beq_iff_eq]
          omega
        rw [this, List.append_nil]
      · have him : i = m := by omega
        subst him
        have h1 : ((List.range i).flatMap G).filter (fun e => e.src == i) = [] := by
          rw [List.filter_eq_nil_iff]
          intro e he
          rcases List.mem_flatMap.mp he with ⟨i', hi', he'⟩
          rw [hG i' e he']
          have := List.mem_range.mp hi'
          simp only [beq_iff_eq]
          omega
        have h2 : (G i).filter (fun e => e.src == i) = G i := by
          rw [List.filter_eq_self]
          intro e he
          rw [hG i e he]
          simp
        rw [h1, h2, List.nil_append]

/-- For a node `i` of the build, the outgoing edges are exactly the sorted,
capped candidate list of `i`, in that order. -/
theorem outEdges_buildEdges (sim : ℕ → ℕ → ℚ) (n : ℕ) (cfg : KGBuildConfig)
    (i : ℕ) (hi : i < n) :
    outEdges (buildEdges sim n cfg) i =
      (selectNeighbours sim cfg.similarity_threshold cfg.max_edges_per_chunk n i).map
        (fun j => ⟨i, j, simsRow sim i j, cfg.rel_type⟩) := by
  unfold outEdges buildEdges
  exact filter_flatMap_src (by intro i' e he; rcases List.mem_map.mp he with ⟨j, _, rfl⟩; rfl) n i hi

theorem candIdx_eq_qualifying {sim : ℕ → ℕ → ℚ} {thr : ℚ} {n i : ℕ}
    (hthr : -1 < thr) :
    candIdx (simsRow sim i) thr n = qualifyingNeighbours sim thr n i := by
  unfold candIdx qualifyingNeighbours
  apply List.filter_congr
  intro j _
  by_cases hji : j = i
  · subst hji
    simp only [simsRow, if_pos rfl, decide_eq_decide]
    constructor
    · intro h; exact absurd h (not_le.mpr hthr)
    · rintro ⟨h, _⟩; exact absurd rfl h
  · simp only [simsRow, if_neg hji, decide_eq_decide]
    tauto

/-! ### Zero-vector lemmas for the cosine primitive -/

theorem dotProduct_zero_right (u v : List ℚ) (hv : ∀ x ∈ v, x = 0) :
    dotProduct u v = 0 := by
  induction u generalizing v with
  | nil => simp [dotProduct]
  | cons a u' ih =>
      cases v with
      | nil => simp [dotProduct]
      | cons b v' =>
          have hb : b = 0 := hv b (by simp)
          have hv' : ∀ x ∈ v', x = 0 := fun x hx => hv x (by simp [hx])
          simp only [dotProduct, List.zipWith_cons_cons, List.sum_cons, hb, mul_zero, zero_add]
          exact ih v' hv'

theorem dotProduct_zero_left (u v : List ℚ) (hu : ∀ x ∈ u, x = 0) :
    dotProduct u v = 0 := by
  induction u generalizing v with
  | nil => simp [dotProduct]
  | cons a u' ih =>
      cases v with
      | nil => simp [dotProduct]
      | cons b v' =>
          have ha : a = 0 := hu a (by simp)
          have hu' : ∀ x ∈ u', x = 0 := fun x hx => hu x (by simp [hx])
          simp only [dotProduct, List.zipWith_cons_cons, List.sum_cons, ha, zero_mul, zero_add]
          exact ih v' hu'

theorem normalizeRow_zero (sqrtFn : ℚ → ℚ) (v : List ℚ) (hv : ∀ x ∈ v, x = 0) :
    ∀ x ∈ normalizeRow sqrtFn v, x = 0 := by
  intro x hx
  rcases List.mem_map.mp hx with ⟨y, hy, rfl⟩
  rw [hv y hy, zero_div]

/-! ### Claim theorems for the build -/

/-- C1: every edge upserted by `build_kg_from_chunk_embeddings` joins two
distinct valid chunks whose cosine similarity is at least
`similarity_threshold`, and its weight equals exactly that cosine
similarity (exact rational equality, hence within the 1e-6 tolerance); no
pair strictly below the threshold gets an edge.  The hypothesis
`-1 < similarity_threshold` reflects the configured domain `[0, 1]`. -/
theorem build_edge_threshold_and_weight (sqrtFn : ℚ → ℚ) (chunks : List ChunkRow)
    (cfg : KGBuildConfig) (hthr : -1 < cfg.similarity_threshold) (e : KGEdge)
    (he : e ∈ (build_kg_from_chunk_embeddings sqrtFn chunks cfg).edges) :
    e.src ≠ e.dst ∧
    cfg.similarity_threshold ≤
      cosine_sim_matrix sqrtFn (validEmbeddings chunks) e.src e.dst ∧
    e.weight = cosine_sim_matrix sqrtFn (validEmbeddings chunks) e.src e.dst := by
  by_cases h1 : chunks = []
  · simp [build_kg_from_chunk_embeddings, h1] at he
  · by_cases h2 : validChunks chunks = []
    · simp [build_kg_from_chunk_embeddings, h1, h2] at he
    · simp only [build_kg_from_chunk_embeddings, if_neg h1, if_neg h2] at he
      rcases mem_buildEdges he with ⟨i, j, _, hj, rfl⟩
      have hji : j ≠ i := selectNeighbours_ne_self hthr hj
      have hthr' := (mem_selectNeighbours hj).2
      refine ⟨Ne.symm hji, ?_, ?_⟩
      · simpa only [simsRow, if_neg hji] using hthr'
      · simp only [simsRow, if_neg hji]

/-- All-zero embedding vector of the required dimension, used by concrete
witnesses (with it, every pairwise cosine similarity is 0). -/
def zeroEmbedding : List ℚ := List.replicate EMBEDDING_DIM 0

/-- A concrete valid chunk row carrying the all-zero embedding. -/
def zeroChunk (i : String) : ChunkRow := ⟨i, "", 0, "doc", some zeroEmbedding⟩

/-- A build config with threshold 0, so zero-similarity pairs qualify. -/
def zeroThresholdConfig : KGBuildConfig := { similarity_threshold := 0 }

theorem zeroChunk_valid (i : String) : chunkEmbeddingValid (zeroChunk i) = true := by
  simp [chunkEmbeddingValid, zeroChunk, zeroEmbedding]

theorem validChunks_zeroPair :
    validChunks [zeroChunk "a", zeroChunk "b"] = [zeroChunk "a", zeroChunk "b"] := by
  simp [validChunks, List.filter, zeroChunk_valid]

theorem validEmbeddings_zeroPair :
    validEmbeddings [zeroChunk "a", zeroChunk "b"] = [zeroEmbedding, zeroEmbedding] := by
  unfold validEmbeddings
  rw [validChunks_zeroPair]
  simp [zeroChunk]

theorem mem_zeroEmbedding : ∀ x ∈ zeroEmbedding, x = 0 :=
  fun _ hx => List.eq_of_mem_replicate hx

theorem zeroPair_getD_zero :
    ∀ i : ℕ, ∀ x ∈ ([zeroEmbedding, zeroEmbedding] : List (List ℚ)).getD i [], x = 0 := by
  intro i
  match i with
  | 0 => exact mem_zeroEmbedding
  | 1 => exact mem_zeroEmbedding
  | n + 2 => intro x hx; simp [List.getD] at hx

theorem cosine_zeroPair_eq_zero :
    cosine_sim_matrix id [zeroEmbedding, zeroEmbedding] = fun _ _ => (0 : ℚ) := by
  funext i j
  exact dotProduct_zero_left _ _ (normalizeRow_zero _ _ (zeroPair_getD_zero i))

set_option maxRecDepth 10000 in
theorem zeroPair_edges :
    (build_kg_from_chunk_embeddings id [zeroChunk "a", zeroChunk "b"]
        zeroThresholdConfig).edges =
      buildEdges (fun _ _ => (0 : ℚ)) 2 zeroThresholdConfig := by
  have hne1 : ([zeroChunk "a", zeroChunk "b"] : List ChunkRow) ≠ [] := by simp
  have hne2 : validChunks [zeroChunk "a", zeroChunk "b"] ≠ [] := by
    rw [validChunks_zeroPair]; simp
  simp only [build_kg_from_chunk_embeddings, if_neg hne1, if_neg hne2,
    validEmbeddings_zeroPair, cosine_zeroPair_eq_zero, validChunks_zeroPair,
    List.length_cons, List.length_nil]

theorem build_edge_threshold_and_weight_witness :
    (-1 : ℚ) < zeroThresholdConfig.similarity_threshold ∧
    (⟨0, 1, 0, "related_to"⟩ : KGEdge) ∈
      (build_kg_from_chunk_embeddings id [zeroChunk "a", zeroChunk "b"]
        zeroThresholdConfig).edges ∧
    ((⟨0, 1, 0, "related_to"⟩ : KGEdge).src ≠ (⟨0, 1, 0, "related_to"⟩ : KGEdge).dst ∧
      zeroThresholdConfig.similarity_threshold ≤
        cosine_sim_matrix id (validEmbeddings [zeroChunk "a", zeroChunk "b"]) 0 1 ∧
      (⟨0, 1, 0, "related_to"⟩ : KGEdge).weight =
        cosine_sim_matrix id (validEmbeddings [zeroChunk "a", zeroChunk "b"]) 0 1) := by
  have hthr : (-1 : ℚ) < zeroThresholdConfig.similarity_threshold := by
    norm_num [zeroThresholdConfig]
  have hmem : (⟨0, 1, 0, "related_to"⟩ : KGEdge) ∈
      (build_kg_from_chunk_embeddings id [zeroChunk "a", zeroChunk "b"]
        zeroThresholdConfig).edges := by
    rw [zeroPair_edges]
    decide
  exact ⟨hthr, hmem,
    build_edge_threshold_and_weight id _ zeroThresholdConfig hthr _ hmem⟩

/-- C2: for every node `i` of a build, the number of outgoing edges is
`min(#qualifying neighbours, max_edges_per_chunk)` — so exactly
`max_edges_per_chunk` when more qualify, exactly `k` when only
`k ≤ max_edges_per_chunk` qualify — and every kept edge's weight is at
least the similarity of every qualifying neighbour that got no edge
(tie-robust reading of "the highest ones"). -/
theorem build_fanout_cap (sqrtFn : ℚ → ℚ) (chunks : List ChunkRow)
    (cfg : KGBuildConfig) (i : ℕ) (hthr : -1 < cfg.similarity_threshold)
    (hi : i < (validChunks chunks).length) :
    (outEdges (build_kg_from_chunk_embeddings sqrtFn chunks cfg).edges i).length =
      min (qualifyingNeighbours (cosine_sim_matrix sqrtFn (validEmbeddings chunks))
            cfg.similarity_threshold (validChunks chunks).length i).length
          cfg.max_edges_per_chunk ∧
    ∀ e ∈ outEdges (build_kg_from_chunk_embeddings sqrtFn chunks cfg).edges i,
      ∀ j ∈ qualifyingNeighbours (cosine_sim_matrix sqrtFn (validEmbeddings chunks))
            cfg.similarity_threshold (validChunks chunks).length i,
        (∀ e' ∈ outEdges (build_kg_from_chunk_embeddings sqrtFn chunks cfg).edges i,
          e'.dst ≠ j) →
        cosine_sim_matrix sqrtFn (validEmbeddings chunks) i j ≤ e.weight := by
  have h1 : chunks ≠ [] := by
    intro h; rw [h] at hi; simp [validChunks] at hi
  have h2 : validChunks chunks ≠ [] := by
    intro h; rw [h] at hi; simp at hi
  have hedges : (build_kg_from_chunk_embeddings sqrtFn chunks cfg).edges =
      buildEdges (cosine_sim_matrix sqrtFn (validEmbeddings chunks))
        (validChunks chunks).length cfg := by
    simp only [build_kg_from_chunk_embeddings, if_neg h1, if_neg h2]
  rw [hedges, outEdges_buildEdges _ _ cfg i hi]
  constructor
  · rw [List.length_map]
    unfold selectNeighbours
    rw [List.length_take, length_sortDesc, candIdx_eq_qualifying hthr, Nat.min_comm]
  · intro e he j hj hnot
    rcases List.mem_map.mp he with ⟨j0, hj0, rfl⟩
    have hj0ne : j0 ≠ i := selectNeighbours_ne_self hthr hj0
    have hjc : j ∈ candIdx
        (simsRow (cosine_sim_matrix sqrtFn (validEmbeddings chunks)) i)
        cfg.similarity_threshold (validChunks chunks).length := by
      rw [candIdx_eq_qualifying hthr]; exact hj
    have hjne : j ≠ i := by
      rcases List.mem_filter.mp hj with ⟨_, hdec⟩
      exact (of_decide_eq_true hdec).1
    have hjtake : j ∉ (sortDesc
        (simsRow (cosine_sim_matrix sqrtFn (validEmbeddings chunks)) i)
        (candIdx (simsRow (cosine_sim_matrix sqrtFn (validEmbeddings chunks)) i)
          cfg.similarity_threshold (validChunks chunks).length)).take
        cfg.max_edges_per_chunk := by
      intro hjt
      exact hnot _ (List.mem_map.mpr ⟨j, hjt, rfl⟩) rfl
    have hjsort : j ∈ sortDesc
        (simsRow (cosine_sim_matrix sqrtFn (validEmbeddings chunks)) i)
        (candIdx (simsRow (cosine_sim_matrix sqrtFn (validEmbeddings chunks)) i)
          cfg.similarity_threshold (validChunks chunks).length) :=
      (mem_sortDesc _ _ _).mpr hjc
    have hjdrop : j ∈ (sortDesc
        (simsRow (cosine_sim_matrix sqrtFn (validEmbeddings chunks)) i)
        (candIdx (simsRow (cosine_sim_matrix sqrtFn (validEmbeddings chunks)) i)
          cfg.similarity_threshold (validChunks chunks).length)).drop
        cfg.max_edges_per_chunk := by
      have hm : j ∈ (sortDesc
          (simsRow (cosine_sim_matrix sqrtFn (validEmbeddings chunks)) i)
          (candIdx (simsRow (cosine_sim_matrix sqrtFn (validEmbeddings chunks)) i)
            cfg.similarity_threshold (validChunks chunks).length)).take
            cfg.max_edges_per_chunk ++ (sortDesc
          (simsRow (cosine_sim_matrix sqrtFn (validEmbeddings chunks)) i)
          (candIdx (simsRow (cosine_sim_matrix sqrtFn (validEmbeddings chunks)) i)
            cfg.similarity_threshold (validChunks chunks).length)).drop
            cfg.max_edges_per_chunk := by
        rw [List.take_append_drop]; exact hjsort
      rcases List.mem_append.mp hm with h | h
      · exact absurd h hjtake
      · exact h
    have hj0take : j0 ∈ (sortDesc
        (simsRow (cosine_sim_matrix sqrtFn (validEmbeddings chunks)) i)
        (candIdx (simsRow (cosine_sim_matrix sqrtFn (validEmbeddings chunks)) i)
          cfg.similarity_threshold (validChunks chunks).length)).take
        cfg.max_edges_per_chunk := hj0
    have hkey := key_take_ge_key_drop
      (simsRow (cosine_sim_matrix sqrtFn (validEmbeddings chunks)) i) _
      cfg.max_edges_per_chunk (pairwise_sortDesc _ _) hj0take hjdrop
    simp only [simsRow, if_neg hjne, if_neg hj0ne] at hkey
    simpa only [simsRow, if_neg hj0ne] using hkey

theorem build_fanout_cap_witness :
    ((-1 : ℚ) < zeroThresholdConfig.similarity_threshold ∧
      0 < (validChunks [zeroChunk "a", zeroChunk "b"]).length) ∧
    ((outEdges (build_kg_from_chunk_embeddings id [zeroChunk "a", zeroChunk "b"]
          zeroThresholdConfig).edges 0).length =
        min (qualifyingNeighbours
              (cosine_sim_matrix id (validEmbeddings [zeroChunk "a", zeroChunk "b"]))
              zeroThresholdConfig.similarity_threshold
              (validChunks [zeroChunk "a", zeroChunk "b"]).length 0).length
            zeroThresholdConfig.max_edges_per_chunk ∧
      ∀ e ∈ outEdges (build_kg_from_chunk_embeddings id [zeroChunk "a", zeroChunk "b"]
          zeroThresholdConfig).edges 0,
        ∀ j ∈ qualifyingNeighbours
              (cosine_sim_matrix id (validEmbeddings [zeroChunk "a", zeroChunk "b"]))
              zeroThresholdConfig.similarity_threshold
              (validChunks [zeroChunk "a", zeroChunk "b"]).length 0,
          (∀ e' ∈ outEdges (build_kg_from_chunk_embeddings id [zeroChunk "a", zeroChunk "b"]
              zeroThresholdConfig).edges 0, e'.dst ≠ j) →
          cosine_sim_matrix id (validEmbeddings [zeroChunk "a", zeroChunk "b"]) 0 j ≤
            e.weight) := by
  have hthr : (-1 : ℚ) < zeroThresholdConfig.similarity_threshold := by
    norm_num [zeroThresholdConfig]
  have hi : 0 < (validChunks [zeroChunk "a", zeroChunk "b"]).length := by
    rw [validChunks_zeroPair]; simp
  exact ⟨⟨hthr, hi⟩, build_fanout_cap id _ zeroThresholdConfig 0 hthr hi⟩

/-- The embedding-validity test passes exactly on a present list of the
required 1536 dimensions. -/
theorem chunkEmbeddingValid_iff (c : ChunkRow) :
    chunkEmbeddingValid c = true ↔
      ∃ l, c.embedding = some l ∧ l.length = EMBEDDING_DIM := by
  cases h : c.embedding with
  | none => simp [chunkEmbeddingValid, h]
  | some l => simp [chunkEmbeddingValid, h]

/-- C5: a fetched chunk is valid iff its embedding is a list of exactly
1536 elements; invalid chunks are skipped and counted without aborting;
`chunks_fetched = chunks_valid + chunks_skipped`;
`nodes_upserted = chunks_valid`; nodes and edges are created only among
the valid chunks (every edge endpoint indexes a valid chunk). -/
theorem build_validation_counters (sqrtFn : ℚ → ℚ) (chunks : List ChunkRow)
    (cfg : KGBuildConfig) :
    (build_kg_from_chunk_embeddings sqrtFn chunks cfg).chunks_fetched = chunks.length ∧
    (build_kg_from_chunk_embeddings sqrtFn chunks cfg).chunks_fetched =
      (build_kg_from_chunk_embeddings sqrtFn chunks cfg).chunks_valid +
        (build_kg_from_chunk_embeddings sqrtFn chunks cfg).chunks_skipped ∧
    (build_kg_from_chunk_embeddings sqrtFn chunks cfg).chunks_valid =
      (validChunks chunks).length ∧
    (∀ c ∈ chunks, chunkEmbeddingValid c = true ↔
      ∃ l, c.embedding = some l ∧ l.length = EMBEDDING_DIM) ∧
    (build_kg_from_chunk_embeddings sqrtFn chunks cfg).nodes_upserted =
      (build_kg_from_chunk_embeddings sqrtFn chunks cfg).chunks_valid ∧
    (build_kg_from_chunk_embeddings sqrtFn chunks cfg).nodes =
      (validChunks chunks).map chunkToNode ∧
    ∀ e ∈ (build_kg_from_chunk_embeddings sqrtFn chunks cfg).edges,
      e.src < (build_kg_from_chunk_embeddings sqrtFn chunks cfg).chunks_valid ∧
      e.dst < (build_kg_from_chunk_embeddings sqrtFn chunks cfg).chunks_valid := by
  have hvle : (validChunks chunks).length ≤ chunks.length :=
    List.length_filter_le _ _
  by_cases h1 : chunks = []
  · subst h1
    simp [build_kg_from_chunk_embeddings, validChunks]
  · by_cases h2 : validChunks chunks = []
    · have hB : build_kg_from_chunk_embeddings sqrtFn chunks cfg =
          ⟨chunks.length, 0, chunks.length - (validChunks chunks).length, 0, 0,
            some "No chunks had valid embeddings.", [], []⟩ := by
        simp only [build_kg_from_chunk_embeddings, if_neg h1, if_pos h2]
      rw [hB]
      refine ⟨rfl, ?_, ?_, fun c _ => chunkEmbeddingValid_iff c, rfl, ?_, ?_⟩
      · simp [h2]
      · simp [h2]
      · simp [h2]
      · intro e he; simp at he
    · have hB : build_kg_from_chunk_embeddings sqrtFn chunks cfg =
          ⟨chunks.length, (validChunks chunks).length,
            chunks.length - (validChunks chunks).length,
            ((validChunks chunks).map chunkToNode).length,
            (buildEdges (cosine_sim_matrix sqrtFn (validEmbeddings chunks))
              (validChunks chunks).length cfg).length, none,
            (validChunks chunks).map chunkToNode,
            buildEdges (cosine_sim_matrix sqrtFn (validEmbeddings chunks))
              (validChunks chunks).length cfg⟩ := by
        simp only [build_kg_from_chunk_embeddings, if_neg h1, if_neg h2]
      rw [hB]
      refine ⟨rfl, ?_, rfl, fun c _ => chunkEmbeddingValid_iff c, ?_, rfl, ?_⟩
      · simp only [List.length_map]
        omega
      · simp [List.length_map]
      · intro e he
        exact buildEdges_src_lt he

/-- C6: the cosine-similarity primitive never divides by zero: the guarded
norm is never 0 (a zero norm is replaced by 1), and every similarity entry
involving an all-zero vector is 0.  The hypothesis `sqrtFn 0 = 0` is the
one property of the abstract square root this needs (true of the exact
float `np.linalg.norm` on a zero vector). -/
theorem cosine_zero_norm_guard (sqrtFn : ℚ → ℚ) (rows : List (List ℚ)) (i : ℕ)
    (h0 : sqrtFn 0 = 0) (hz : ∀ x ∈ rows.getD i [], x = 0) :
    guardedNorm sqrtFn (rows.getD i []) = 1 ∧
    (∀ j, cosine_sim_matrix sqrtFn rows i j = 0 ∧
      cosine_sim_matrix sqrtFn rows j i = 0) ∧
    (∀ v : List ℚ, guardedNorm sqrtFn v ≠ 0) := by
  refine ⟨?_, ?_, ?_⟩
  · unfold guardedNorm l2norm
    rw [show sumSq (rows.getD i []) = 0 from dotProduct_zero_right _ _ hz, h0]
    simp
  · intro j
    exact ⟨dotProduct_zero_left _ _ (normalizeRow_zero _ _ hz),
           dotProduct_zero_right _ _ (normalizeRow_zero _ _ hz)⟩
  · intro v
    unfold guardedNorm
    by_cases h : l2norm sqrtFn v = 0
    · rw [if_pos h]; norm_num
    · rw [if_neg h]; exact h

theorem cosine_zero_norm_guard_witness :
    (id (0 : ℚ) = 0 ∧ ∀ x ∈ ([[0, 0], [3, 4]] : List (List ℚ)).getD 0 [], x = 0) ∧
    (guardedNorm id (([[0, 0], [3, 4]] : List (List ℚ)).getD 0 []) = 1 ∧
      (∀ j, cosine_sim_matrix id [[0, 0], [3, 4]] 0 j = 0 ∧
        cosine_sim_matrix id [[0, 0], [3, 4]] j 0 = 0) ∧
      (∀ v : List ℚ, guardedNorm id v ≠ 0)) := by
  have h0 : id (0 : ℚ) = 0 := rfl
  have hz : ∀ x ∈ ([[0, 0], [3, 4]] : List (List ℚ)).getD 0 [], x = 0 := by decide
  exact ⟨⟨h0, hz⟩, cosine_zero_norm_guard id [[0, 0], [3, 4]] 0 h0 hz⟩

/-! ### Pagination (`_fetch_all_chunks_paginated`) -/

/-- The `while True` loop of `_fetch_all_chunks_paginated`.  `fetch offset`
models `fetch_chunks_with_embeddings(limit=batch_size, offset=offset)`:
the store's response for one page. -/
def fetchChunksGo (fetch : ℕ → List ChunkRow) (batchSize maxChunks : ℕ)
    (chunks : List ChunkRow) (offset : ℕ) : List ChunkRow :=
  if h1 : fetch offset = [] then chunks
  else if h2 : maxChunks ≤ (chunks ++ fetch offset).length then
    (chunks ++ fetch offset).take maxChunks
  else if h3 : (fetch offset).length < batchSize then chunks ++ fetch offset
  else fetchChunksGo fetch batchSize maxChunks (chunks ++ fetch offset) (offset + batchSize)
termination_by maxChunks - chunks.length
decreasing_by
  have hpos : 0 < (fetch offset).length := List.length_pos.mpr h1
  simp only [List.length_append] at h2 ⊢
  omega

/-- `_fetch_all_chunks_paginated`: page through chunks, `batch_size` at a
time, truncating at `max_chunks`. -/
def fetch_all_chunks_paginated (fetch : ℕ → List ChunkRow) (cfg : KGBuildConfig) :
    List ChunkRow :=
  fetchChunksGo fetch cfg.batch_size cfg.max_chunks [] 0

/-- The concatenation of the first `k` pages the store would serve. -/
def concatBatches (fetch : ℕ → List ChunkRow) (batchSize k : ℕ) : List ChunkRow :=
  (List.range k).flatMap (fun t => fetch (t * batchSize))

theorem concatBatches_succ (fetch : ℕ → List ChunkRow) (batchSize k : ℕ) :
    concatBatches fetch batchSize (k + 1) =
      concatBatches fetch batchSize k ++ fetch (k * batchSize) := by
  unfold concatBatches
  rw [List.range_succ, List.flatMap_append]
  simp

theorem fetchChunksGo_spec (fetch : ℕ → List ChunkRow) (bs mc : ℕ) :
    ∀ m chunks k,
      mc - chunks.length ≤ m →
      chunks = concatBatches fetch bs k →
      chunks.length ≤ mc →
      ∃ r, fetchChunksGo fetch bs mc chunks (k * bs) =
        (concatBatches fetch bs r).take mc := by
  intro m
  induction m with
  | zero =>
      intro chunks k hm hc hle
      rw [fetchChunksGo]
      split
      · exact ⟨k, by rw [← hc, List.take_of_length_le hle]⟩
      · split
        · exact ⟨k + 1, by rw [concatBatches_succ, ← hc]⟩
        · split
          · rename_i h1 h2 h3
            refine ⟨k + 1, ?_⟩
            rw [concatBatches_succ, ← hc, List.take_of_length_le (le_of_not_le h2)]
          · rename_i h1 h2 h3
            exfalso
            have hpos : 0 < (fetch (k * bs)).length := List.length_pos.mpr h1
            simp only [List.length_append] at h2
            omega
  | succ m ih =>
      intro chunks k hm hc hle
      rw [fetchChunksGo]
      split
      · exact ⟨k, by rw [← hc, List.take_of_length_le hle]⟩
      · split
        · exact ⟨k + 1, by rw [concatBatches_succ, ← hc]⟩
        · split
          · rename_i h1 h2 h3
            refine ⟨k + 1, ?_⟩
            rw [concatBatches_succ, ← hc, List.take_of_length_le (le_of_not_le h2)]
          · rename_i h1 h2 h3
            have hpos : 0 < (fetch (k * bs)).length := List.length_pos.mpr h1
            have hlen : (chunks ++ fetch (k * bs)).length < mc := by
              exact lt_of_not_le h2
            obtain ⟨r, hr⟩ := ih (chunks ++ fetch (k * bs)) (k + 1)
              (by simp only [List.length_append] at hlen ⊢; omega)
              (by rw [concatBatches_succ, ← hc])
              (le_of_lt hlen)
            refine ⟨r, ?_⟩
            have hoff : (k + 1) * bs = k * bs + bs := by ring
            rw [hoff] at hr
            exact hr

/-- C9: the chunk-pagination loop of the build terminates (it is a total
function by well-founded recursion on `max_chunks - fetched`) and returns
a prefix of the concatenated pages truncated to the first `max_chunks`
chunks — in particular it never returns more than `max_chunks` chunks and
never raises. -/
theorem pagination_truncates (fetch : ℕ → List ChunkRow) (cfg : KGBuildConfig) :
    (∃ k, fetch_all_chunks_paginated fetch cfg =
      (concatBatches fetch cfg.batch_size k).take cfg.max_chunks) ∧
    (fetch_all_chunks_paginated fetch cfg).length ≤ cfg.max_chunks := by
  obtain ⟨r, hr⟩ := fetchChunksGo_spec fetch cfg.batch_size cfg.max_chunks
    cfg.max_chunks [] 0 (by simp) (by simp [concatBatches]) (by simp)
  simp only [Nat.zero_mul] at hr
  have hmain : fetch_all_chunks_paginated fetch cfg =
      (concatBatches fetch cfg.batch_size r).take cfg.max_chunks := hr
  refine ⟨⟨r, hmain⟩, ?_⟩
  rw [hmain]
  exact List.length_take_le _ _

/-! ### Exception behaviour of the build upserts (C7): the Python loop has
no try/except around `upsert_node` / `upsert_edge`, so the first raised
exception propagates and aborts the build. -/

/-- Run `upsert_node` over the valid chunks in order (step 1 of the build);
a raised exception propagates immediately. -/
def upsertChunkNodes (upsertN : ChunkRow → Except String String) :
    List ChunkRow → Except String (List String)
  | [] => .ok []
  | c :: rest =>
    match upsertN c with
    | .error e => .error e
    | .ok nid =>
      match upsertChunkNodes upsertN rest with
      | .error e => .error e
      | .ok ids => .ok (nid :: ids)

/-- Run `upsert_edge` over the similarity edges in order (step 2); a raised
exception propagates immediately. -/
def upsertEdgeList (upsertE : KGEdge → Except String String) :
    List KGEdge → Except String (List String)
  | [] => .ok []
  | e :: rest =>
    match upsertE e with
    | .error msg => .error msg
    | .ok eid =>
      match upsertEdgeList upsertE rest with
      | .error msg => .error msg
      | .ok ids => .ok (eid :: ids)

/-- `build_kg_from_chunk_embeddings` with fallible upsert RPCs: node
upserts run before edge upserts, and any raised exception aborts the call
(there is no warnings list in the code). -/
def build_kg_with_upserts (sqrtFn : ℚ → ℚ)
    (upsertN : ChunkRow → Except String String)
    (upsertE : KGEdge → Except String String)
    (chunks : List ChunkRow) (cfg : KGBuildConfig) : Except String KGBuildResult :=
  if chunks = [] then
    .ok ⟨0, 0, 0, 0, 0, some "No embedded chunks found.", [], []⟩
  else
    let valid := validChunks chunks
    let skipped := chunks.length - valid.length
    if valid = [] then
      .ok ⟨chunks.length, 0, skipped, 0, 0, some "No chunks had valid embeddings.", [], []⟩
    else
      match upsertChunkNodes upsertN valid with
      | .error e => .error e
      | .ok _ =>
        match upsertEdgeList upsertE
            (buildEdges (cosine_sim_matrix sqrtFn (validEmbeddings chunks))
              valid.length cfg) with
        | .error e => .error e
        | .ok _ =>
          .ok ⟨chunks.length, valid.length, skipped, valid.length,
            (buildEdges (cosine_sim_matrix sqrtFn (validEmbeddings chunks))
              valid.length cfg).length, none, valid.map chunkToNode,
            buildEdges (cosine_sim_matrix sqrtFn (validEmbeddings chunks))
              valid.length cfg⟩

theorem validChunks_zeroSingle :
    validChunks [zeroChunk "a"] = [zeroChunk "a"] := by
  simp [validChunks, List.filter, zeroChunk_valid]

set_option maxRecDepth 10000 in
/-- Counterexample to C7: with one valid chunk and a node upsert that
raises, the build call raises too — it does not return a success result
carrying a warnings list (no warnings list exists in the code). -/
theorem build_upsert_failure_cex :
    build_kg_with_upserts id (fun _ => .error "db down") (fun _ => .ok "e")
      [zeroChunk "a"] {} = .error "db down" := by
  have h1 : ([zeroChunk "a"] : List ChunkRow) ≠ [] := by simp
  have h2 : validChunks [zeroChunk "a"] ≠ [] := by
    rw [validChunks_zeroSingle]; simp
  simp only [build_kg_with_upserts, if_neg h1, if_neg h2, validChunks_zeroSingle,
    upsertChunkNodes]

/-- If every chunk's node upsert succeeds, the node-upsert phase succeeds. -/
theorem upsertChunkNodes_ok (upsertN : ChunkRow → Except String String)
    (l : List ChunkRow) (hok : ∀ c ∈ l, ∃ nid, upsertN c = .ok nid) :
    ∃ ids, upsertChunkNodes upsertN l = .ok ids := by
  induction l with
  | nil => exact ⟨[], rfl⟩
  | cons c rest ih =>
      obtain ⟨nid, hnid⟩ := hok c (List.mem_cons_self c rest)
      obtain ⟨ids, hids⟩ := ih (fun c' hc' => hok c' (List.mem_cons_of_mem _ hc'))
      exact ⟨nid :: ids, by simp [upsertChunkNodes, hnid, hids]⟩

/-- The node-upsert phase propagates the error of the first failing upsert:
if every upsert before `c` succeeds and `c`'s upsert raises `msg`, the
phase returns exactly `msg`. -/
theorem upsertChunkNodes_error_at (upsertN : ChunkRow → Except String String) :
    ∀ (l₁ : List ChunkRow) (c : ChunkRow) (l₂ : List ChunkRow) (msg : String),
      (∀ c' ∈ l₁, ∃ nid, upsertN c' = .ok nid) →
      upsertN c = .error msg →
      upsertChunkNodes upsertN (l₁ ++ c :: l₂) = .error msg := by
  intro l₁
  induction l₁ with
  | nil =>
      intro c l₂ msg _ hc
      simp [upsertChunkNodes, hc]
  | cons a rest ih =>
      intro c l₂ msg hok hc
      obtain ⟨nid, hnid⟩ := hok a (List.mem_cons_self a rest)
      have hrest := ih c l₂ msg (fun c' hc' => hok c' (List.mem_cons_of_mem _ hc')) hc
      simp [upsertChunkNodes, hnid, hrest]

/-- The edge-upsert phase propagates the error of the first failing upsert. -/
theorem upsertEdgeList_error_at (upsertE : KGEdge → Except String String) :
    ∀ (l₁ : List KGEdge) (e : KGEdge) (l₂ : List KGEdge) (msg : String),
      (∀ e' ∈ l₁, ∃ eid, upsertE e' = .ok eid) →
      upsertE e = .error msg →
      upsertEdgeList upsertE (l₁ ++ e :: l₂) = .error msg := by
  intro l₁
  induction l₁ with
  | nil =>
      intro e l₂ msg _ he
      simp [upsertEdgeList, he]
  | cons a rest ih =>
      intro e l₂ msg hok he
      obtain ⟨eid, heid⟩ := hok a (List.mem_cons_self a rest)
      have hrest := ih e l₂ msg (fun e' he' => hok e' (List.mem_cons_of_mem _ he')) he
      simp [upsertEdgeList, heid, hrest]

/-- C7 (amended): an individual node or edge upsert failure inside a build
is NOT collected into a warnings list — the exception is uncaught, so the
first failing upsert aborts the build call with exactly that error.  Part
one: a node upsert fails, every node upsert before it having succeeded.
Part two: all node upserts succeed and an edge upsert fails, every edge
upsert before it having succeeded. -/
theorem build_upsert_failure_aborts (sqrtFn : ℚ → ℚ)
    (upsertN : ChunkRow → Except String String)
    (upsertE : KGEdge → Except String String)
    (chunks : List ChunkRow) (cfg : KGBuildConfig) :
    (∀ (l₁ l₂ : List ChunkRow) (c : ChunkRow) (msg : String),
      validChunks chunks = l₁ ++ c :: l₂ →
      (∀ c' ∈ l₁, ∃ nid, upsertN c' = .ok nid) →
      upsertN c = .error msg →
      build_kg_with_upserts sqrtFn upsertN upsertE chunks cfg = .error msg) ∧
    (∀ (e₁ e₂ : List KGEdge) (e : KGEdge) (msg : String),
      (∀ c ∈ validChunks chunks, ∃ nid, upsertN c = .ok nid) →
      buildEdges (cosine_sim_matrix sqrtFn (validEmbeddings chunks))
        (validChunks chunks).length cfg = e₁ ++ e :: e₂ →
      (∀ e' ∈ e₁, ∃ eid, upsertE e' = .ok eid) →
      upsertE e = .error msg →
      build_kg_with_upserts sqrtFn upsertN upsertE chunks cfg = .error msg) := by
  constructor
  · intro l₁ l₂ c msg hsplit hok hc
    have h2 : validChunks chunks ≠ [] := by
      rw [hsplit]; simp
    have h1 : chunks ≠ [] := by
      intro h; rw [h] at h2; simp [validChunks] at h2
    have herr : upsertChunkNodes upsertN (validChunks chunks) = .error msg := by
      rw [hsplit]
      exact upsertChunkNodes_error_at upsertN l₁ c l₂ msg hok hc
    simp only [build_kg_with_upserts, if_neg h1, if_neg h2, herr]
  · intro e₁ e₂ e msg hnodes hsplit hok hc
    have h2 : validChunks chunks ≠ [] := by
      intro h
      have hlen : (validChunks chunks).length = 0 := by rw [h]; rfl
      rw [hlen] at hsplit
      have hnil : buildEdges (cosine_sim_matrix sqrtFn (validEmbeddings chunks))
          0 cfg = [] := rfl
      rw [hnil] at hsplit
      exact absurd hsplit.symm (by simp)
    have h1 : chunks ≠ [] := by
      intro h; rw [h] at h2; simp [validChunks] at h2
    obtain ⟨ids, hids⟩ := upsertChunkNodes_ok upsertN (validChunks chunks) hnodes
    have herr : upsertEdgeList upsertE
        (buildEdges (cosine_sim_matrix sqrtFn (validEmbeddings chunks))
          (validChunks chunks).length cfg) = .error msg := by
      rw [hsplit]
      exact upsertEdgeList_error_at upsertE e₁ e e₂ msg hok hc
    simp only [build_kg_with_upserts, if_neg h1, if_neg h2, hids, herr]

theorem build_upsert_failure_aborts_witness :
    (validChunks [zeroChunk "a"] = [] ++ zeroChunk "a" :: [] ∧
      (fun _ : ChunkRow => (.error "db down" : Except String String)) (zeroChunk "a") =
        .error "db down" ∧
      build_kg_with_upserts id (fun _ => .error "db down") (fun _ => .ok "e")
        [zeroChunk "a"] {} = .error "db down") ∧
    ((∀ c ∈ validChunks [zeroChunk "a", zeroChunk "b"], ∃ nid,
        (fun _ : ChunkRow => (.ok "nid" : Except String String)) c = .ok nid) ∧
      buildEdges (cosine_sim_matrix id (validEmbeddings [zeroChunk "a", zeroChunk "b"]))
          (validChunks [zeroChunk "a", zeroChunk "b"]).length zeroThresholdConfig =
        [] ++ (⟨0, 1, 0, "related_to"⟩ : KGEdge) :: [⟨1, 0, 0, "related_to"⟩] ∧
      (fun _ : KGEdge => (.error "edge down" : Except String String))
          (⟨0, 1, 0, "related_to"⟩ : KGEdge) = .error "edge down" ∧
      build_kg_with_upserts id (fun _ => .ok "nid") (fun _ => .error "edge down")
        [zeroChunk "a", zeroChunk "b"] zeroThresholdConfig = .error "edge down") := by
  have hsplit1 : validChunks [zeroChunk "a"] = [] ++ zeroChunk "a" :: [] := by
    rw [validChunks_zeroSingle]; rfl
  have hok1 : ∀ c' ∈ ([] : List ChunkRow), ∃ nid,
      (fun _ : ChunkRow => (.error "db down" : Except String String)) c' = .ok nid := by
    intro c' hc'; simp at hc'
  have habort1 := (build_upsert_failure_aborts id (fun _ => .error "db down")
    (fun _ => .ok "e") [zeroChunk "a"] {}).1 [] [] (zeroChunk "a") "db down"
    hsplit1 hok1 rfl
  have hnodes2 : ∀ c ∈ validChunks [zeroChunk "a", zeroChunk "b"], ∃ nid,
      (fun _ : ChunkRow => (.ok "nid" : Except String String)) c = .ok nid := by
    intro c _; exact ⟨"nid", rfl⟩
  have hsplit2 : buildEdges
      (cosine_sim_matrix id (validEmbeddings [zeroChunk "a", zeroChunk "b"]))
      (validChunks [zeroChunk "a", zeroChunk "b"]).length zeroThresholdConfig =
      [] ++ (⟨0, 1, 0, "related_to"⟩ : KGEdge) :: [⟨1, 0, 0, "related_to"⟩] := by
    rw [validEmbeddings_zeroPair, cosine_zeroPair_eq_zero, validChunks_zeroPair]
    decide
  have hok2 : ∀ e' ∈ ([] : List KGEdge), ∃ eid,
      (fun _ : KGEdge => (.error "edge down" : Except String String)) e' = .ok eid := by
    intro e' he'; simp at he'
  have habort2 := (build_upsert_failure_aborts id (fun _ => .ok "nid")
    (fun _ => .error "edge down") [zeroChunk "a", zeroChunk "b"]
    zeroThresholdConfig).2 [] [⟨1, 0, 0, "related_to"⟩] ⟨0, 1, 0, "related_to"⟩
    "edge down" hnodes2 hsplit2 hok2 rfl
  exact ⟨⟨hsplit1, rfl, habort1⟩, ⟨hnodes2, hsplit2, rfl, habort2⟩⟩

/-! ### Node-type validation in `upsert_node` (C10) -/

/-- `_VALID_NODE_TYPES`. -/
def VALID_NODE_TYPES : List String :=
  ["WebPage", "PDF", "Image", "PowerPoint", "Docx",
   "VideoTranscript", "ChatTranscript", "ChatSnapshot", "Chunk"]

/-- The arguments of `upsert_node` relevant to type validation. -/
structure UpsertNodeArgs where
  node_key : String
  type_value : String
  name : String
deriving DecidableEq, Repr

/-- `upsert_node`: validates `type_value` against `_VALID_NODE_TYPES`
before issuing the `upsert_kg_node` RPC.  `rpc` models the RPC: it
transforms the store state `st` and returns the node id.  An invalid type
raises `ValueError` before the RPC is called. -/
def upsert_node {σ : Type} (rpc : UpsertNodeArgs → σ → σ × String) (st : σ)
    (a : UpsertNodeArgs) : Except String (σ × String) :=
  if a.type_value ∈ VALID_NODE_TYPES then .ok (rpc a st)
  else .error ("Invalid node type " ++ a.type_value)

/-- C10: `upsert_node` with a `type_value` outside the nine valid node
types raises `ValueError` before any store RPC is issued (the result is
the same for every RPC implementation, so the store state is untouched);
with a `type_value` in the set, validation passes and the RPC runs. -/
theorem upsert_node_type_validation {σ : Type}
    (rpc rpc2 : UpsertNodeArgs → σ → σ × String) (st : σ) (a : UpsertNodeArgs) :
    (a.type_value ∉ VALID_NODE_TYPES →
      upsert_node rpc st a = .error ("Invalid node type " ++ a.type_value) ∧
      upsert_node rpc st a = upsert_node rpc2 st a) ∧
    (a.type_value ∈ VALID_NODE_TYPES →
      upsert_node rpc st a = .ok (rpc a st)) := by
  constructor
  · intro h
    constructor <;> simp [upsert_node, h]
  · intro h
    simp [upsert_node, h]

theorem upsert_node_type_validation_witness :
    ("Foo" ∉ VALID_NODE_TYPES ∧
      (upsert_node (fun _ n => (n + 1, "id")) (0 : ℕ) ⟨"k", "Foo", "n"⟩ =
          .error ("Invalid node type " ++ "Foo") ∧
        upsert_node (fun _ n => (n + 1, "id")) (0 : ℕ) ⟨"k", "Foo", "n"⟩ =
          upsert_node (fun _ n => (n + 5, "other")) (0 : ℕ) ⟨"k", "Foo", "n"⟩)) ∧
    ("Chunk" ∈ VALID_NODE_TYPES ∧
      upsert_node (fun _ n => (n + 1, "id")) (0 : ℕ) ⟨"k", "Chunk", "n"⟩ =
        .ok ((fun (_ : UpsertNodeArgs) (n : ℕ) => (n + 1, "id")) ⟨"k", "Chunk", "n"⟩ 0)) := by
  have hni : "Foo" ∉ VALID_NODE_TYPES := by decide
  have hmi : "Chunk" ∈ VALID_NODE_TYPES := by decide
  exact ⟨⟨hni, (upsert_node_type_validation (fun _ n => (n + 1, "id"))
      (fun _ n => (n + 5, "other")) 0 ⟨"k", "Foo", "n"⟩).1 hni⟩,
    ⟨hmi, (upsert_node_type_validation (fun _ n => (n + 1, "id"))
      (fun _ n => (n + 5, "other")) 0 ⟨"k", "Chunk", "n"⟩).2 hmi⟩⟩

/-! ### Retrieval (`kg_retriever_service.py`)

The store is modelled by explicit tables.  A fallible RPC result is an
`Except String` value: `.error` models a raised exception, which the
Python wrappers catch and turn into an empty list.  The `search_kg_nodes`
RPC itself is SQL outside this repository; its result rows are taken as
input. -/

/-- A row of the `kg_nodes` table (the columns selected by the service). -/
structure KGNodeRow where
  id : String
  node_key : String
  name : String
  type_value : String
  description : Option String
  chunk_id : Option String
  document_id : Option String
  chunk_index : Option ℕ
  tenant_id : String
  status : String
deriving DecidableEq, Repr

/-- A row of the `kg_edges` table (the columns the edge query touches). -/
structure KGEdgeRow where
  tenant_id : String
  client_id : String
  src_id : String
  dst_id : String
  weight : ℚ
  is_active : Bool
deriving DecidableEq, Repr

/-- A row returned by the `search_kg_nodes` RPC: a node plus its
similarity to the query embedding. -/
structure SeedRow where
  row : KGNodeRow
  similarity : Option ℚ
deriving DecidableEq, Repr

/-- The pydantic fields of `KGRetrieverService` that drive retrieval. -/
structure RetrieverConfig where
  tenant_id : String
  client_id : String
  top_k : ℕ := 5
  hop_limit : ℤ := 1
  max_neighbours : ℕ := 3
  min_edge_weight : ℚ := 75/100
deriving DecidableEq, Repr

/-- The store as seen by one retrieval call: the response of each RPC /
table query the call makes (`.error` = the call raises). -/
structure KGStore where
  search_result : Except String (List SeedRow)
  edge_table : Except String (List KGEdgeRow)
  node_table : Except String (List KGNodeRow)
  chunk_content : String → Option String

/-- `_vector_search`: returns the RPC rows, or `[]` when the RPC raises
(the `except` branch returns `[]`). -/
def vector_search (store : KGStore) : List SeedRow :=
  match store.search_result with
  | .ok rows => rows
  | .error _ => []

/-- `_get_neighbour_ids`: outgoing active edges of `nid` with weight at
least `min_edge_weight`, ordered by weight descending, capped at
`max_neighbours`; `[]` when the query raises. -/
def get_neighbour_ids (store : KGStore) (cfg : RetrieverConfig) (nid : String) :
    List String :=
  match store.edge_table with
  | .error _ => []
  | .ok tbl =>
    ((sortDesc (fun e => e.weight)
        (tbl.filter (fun e => decide (e.tenant_id = cfg.tenant_id ∧
          e.client_id = cfg.client_id ∧ e.src_id = nid ∧ e.is_active = true ∧
          cfg.min_edge_weight ≤ e.weight)))).take cfg.max_neighbours).map
      (fun e => e.dst_id)

/-- `_fetch_nodes_by_ids`: batch fetch of active node rows by id, in store
(table) order — the query has no ORDER BY; `[]` when the query raises.
(The query filters tenant and status but, as in the code, not client.) -/
def fetch_nodes_by_ids (store : KGStore) (cfg : RetrieverConfig)
    (ids : List String) : List KGNodeRow :=
  if ids = [] then []
  else
    match store.node_table with
    | .error _ => []
    | .ok tbl =>
      tbl.filter (fun nd => decide (nd.id ∈ ids ∧ nd.tenant_id = cfg.tenant_id ∧
        nd.status = "active"))

/-- Python `or`-chain step: use `a` unless it is `None` or the empty
string, else `b`. -/
def pyOrElse (a : Option String) (b : String) : String :=
  match a with
  | some s => if s = "" then b else s
  | none => b

/-- The chunk-content lookup of `_node_to_document`: only fetched when
`properties.chunk_id` is truthy. -/
def chunkContentOf (store : KGStore) (nd : KGNodeRow) : Option String :=
  match nd.chunk_id with
  | some cid => if cid = "" then none else store.chunk_content cid
  | none => none

/-- A LangChain `Document` as produced by `_node_to_document`
(`page_content` plus the metadata keys). -/
structure RetrievedDoc where
  page_content : String
  node_id : String
  node_key : String
  node_type : String
  document_id : Option String
  chunk_id : Option String
  chunk_index : Option ℕ
  similarity_score : Option ℚ
  source : String
deriving DecidableEq, Repr

/-- `round(x, 4)` on the similarity score. -/
def round4 (q : ℚ) : ℚ := ((round (q * 10000) : ℤ) : ℚ) / 10000

/-- `_node_to_document`: content falls back full chunk text → description
→ name → empty string (Python truthiness). -/
def node_to_document (store : KGStore) (nd : KGNodeRow) (similarity : Option ℚ)
    (source : String) : RetrievedDoc where
  page_content :=
    pyOrElse (chunkContentOf store nd)
      (pyOrElse nd.description (pyOrElse (some nd.name) ""))
  node_id := nd.id
  node_key := nd.node_key
  node_type := nd.type_value
  document_id := nd.document_id
  chunk_id := nd.chunk_id
  chunk_index := nd.chunk_index
  similarity_score := similarity.map round4
  source := source

/-- The inner `for nb in self._fetch_nodes_by_ids(...)` loop: emit a
document per fetched node not yet seen, threading `seen_ids`. -/
def expandNodes (store : KGStore) :
    List KGNodeRow → List String → (List RetrievedDoc × List String)
  | [], seen => ([], seen)
  | nb :: rest, seen =>
    if nb.id ∈ seen then expandNodes store rest seen
    else
      let res := expandNodes store rest (seen ++ [nb.id])
      ((node_to_document store nb none "graph_expansion") :: res.1, res.2)

/-- The `for node in seed_nodes` loop of `_get_relevant_documents`,
threading `seen_ids`. -/
def retrieveLoop (store : KGStore) (cfg : RetrieverConfig) :
    List SeedRow → List String → List RetrievedDoc
  | [], _ => []
  | s :: rest, seen =>
    if s.row.id ∈ seen then retrieveLoop store cfg rest seen
    else
      if 1 ≤ cfg.hop_limit then
        let expanded := expandNodes store
          (fetch_nodes_by_ids store cfg
            ((get_neighbour_ids store cfg s.row.id).filter
              (fun x => decide (x ∉ seen ++ [s.row.id]))))
          (seen ++ [s.row.id])
        node_to_document store s.row s.similarity "vector" ::
          (expanded.1 ++ retrieveLoop store cfg rest expanded.2)
      else
        node_to_document store s.row s.similarity "vector" ::
          retrieveLoop store cfg rest (seen ++ [s.row.id])

/-- `_get_relevant_documents` (after the query has been embedded): seed
from vector search, expand one hop when `hop_limit >= 1`, deduplicate. -/
def get_relevant_documents (store : KGStore) (cfg : RetrieverConfig) :
    List RetrievedDoc :=
  retrieveLoop store cfg (vector_search store) []

theorem node_to_document_id (store : KGStore) (nd : KGNodeRow) (sim : Option ℚ)
    (src : String) : (node_to_document store nd sim src).node_id = nd.id := rfl

theorem node_to_document_source (store : KGStore) (nd : KGNodeRow) (sim : Option ℚ)
    (src : String) : (node_to_document store nd sim src).source = src := rfl

theorem expandNodes_seen (store : KGStore) (nbs : List KGNodeRow) (seen : List String) :
    (expandNodes store nbs seen).2 =
      seen ++ (expandNodes store nbs seen).1.map (fun d => d.node_id) := by
  induction nbs generalizing seen with
  | nil => simp [expandNodes]
  | cons nb rest ih =>
      by_cases h : nb.id ∈ seen
      · simp only [expandNodes, if_pos h]
        exact ih seen
      · simp only [expandNodes, if_neg h, List.map_cons, node_to_document_id]
        rw [ih (seen ++ [nb.id])]
        simp

theorem expandNodes_nodup (store : KGStore) (nbs : List KGNodeRow) (seen : List String) :
    ((expandNodes store nbs seen).1.map (fun d => d.node_id)).Nodup ∧
    ∀ x ∈ (expandNodes store nbs seen).1.map (fun d => d.node_id), x ∉ seen := by
  induction nbs generalizing seen with
  | nil => simp [expandNodes]
  | cons nb rest ih =>
      by_cases h : nb.id ∈ seen
      · simpa only [expandNodes, if_pos h] using ih seen
      · obtain ⟨ih1, ih2⟩ := ih (seen ++ [nb.id])
        simp only [expandNodes, if_neg h, List.map_cons, node_to_document_id,
          List.nodup_cons, List.mem_cons]
        refine ⟨⟨?_, ih1⟩, ?_⟩
        · intro hmem
          exact ih2 _ hmem (by simp)
        · rintro x (rfl | hx')
          · exact h
          · intro hxseen
            exact ih2 x hx' (List.mem_append_left _ hxseen)

theorem expandNodes_mem (store : KGStore) (nbs : List KGNodeRow) (seen : List String) :
    ∀ d ∈ (expandNodes store nbs seen).1,
      ∃ nb ∈ nbs, d = node_to_document store nb none "graph_expansion" := by
  induction nbs generalizing seen with
  | nil => simp [expandNodes]
  | cons nb rest ih =>
      by_cases h : nb.id ∈ seen
      · simp only [expandNodes, if_pos h]
        intro d hd
        obtain ⟨nb', hnb', rfl⟩ := ih seen d hd
        exact ⟨nb', by simp [hnb'], rfl⟩
      · simp only [expandNodes, if_neg h]
        intro d hd
        rcases List.mem_cons.mp hd with rfl | hd'
        · exact ⟨nb, by simp, rfl⟩
        · obtain ⟨nb', hnb', rfl⟩ := ih (seen ++ [nb.id]) d hd'
          exact ⟨nb', by simp [hnb'], rfl⟩

theorem expandNodes_filter_vector (store : KGStore) (nbs : List KGNodeRow)
    (seen : List String) :
    (expandNodes store nbs seen).1.filter (fun d => d.source == "vector") = [] := by
  rw [List.filter_eq_nil_iff]
  intro d hd
  obtain ⟨nb, _, rfl⟩ := expandNodes_mem store nbs seen d hd
  simp [node_to_document_source]

theorem mem_fetch_nodes_by_ids {store : KGStore} {cfg : RetrieverConfig}
    {ids : List String} {nd : KGNodeRow}
    (h : nd ∈ fetch_nodes_by_ids store cfg ids) : nd.id ∈ ids := by
  unfold fetch_nodes_by_ids at h
  by_cases hids : ids = []
  · rw [if_pos hids] at h; simp at h
  · rw [if_neg hids] at h
    cases htbl : store.node_table with
    | error e => rw [htbl] at h; simp at h
    | ok tbl =>
        rw [htbl] at h
        exact (of_decide_eq_true (List.mem_filter.mp h).2).1

theorem retrieveLoop_nodup (store : KGStore) (cfg : RetrieverConfig) :
    ∀ (seeds : List SeedRow) (seen : List String),
      ((retrieveLoop store cfg seeds seen).map (fun d => d.node_id)).Nodup ∧
      ∀ x ∈ (retrieveLoop store cfg seeds seen).map (fun d => d.node_id), x ∉ seen := by
  intro seeds
  induction seeds with
  | nil => intro seen; simp [retrieveLoop]
  | cons s rest ih =>
      intro seen
      by_cases h : s.row.id ∈ seen
      · simpa only [retrieveLoop, if_pos h] using ih seen
      · by_cases hhop : 1 ≤ cfg.hop_limit
        · have hE := expandNodes_nodup store
            (fetch_nodes_by_ids store cfg
              ((get_neighbour_ids store cfg s.row.id).filter
                (fun x => decide (x ∉ seen ++ [s.row.id]))))
            (seen ++ [s.row.id])
          have hEseen := expandNodes_seen store
            (fetch_nodes_by_ids store cfg
              ((get_neighbour_ids store cfg s.row.id).filter
                (fun x => decide (x ∉ seen ++ [s.row.id]))))
            (seen ++ [s.row.id])
          have hR := ih
            (expandNodes store
              (fetch_nodes_by_ids store cfg
                ((get_neighbour_ids store cfg s.row.id).filter
                  (fun x => decide (x ∉ seen ++ [s.row.id]))))
              (seen ++ [s.row.id])).2
          simp only [retrieveLoop, if_neg h, if_pos hhop]
          set E := expandNodes store
            (fetch_nodes_by_ids store cfg
              ((get_neighbour_ids store cfg s.row.id).filter
                (fun x => decide (x ∉ seen ++ [s.row.id]))))
            (seen ++ [s.row.id]) with hEdef
          obtain ⟨hE1, hE2⟩ := hE
          obtain ⟨hR1, hR2⟩ := hR
          have hnotE2 : ∀ x ∈ (retrieveLoop store cfg rest E.2).map
              (fun d => d.node_id),
              x ∉ seen ++ [s.row.id] ++ E.1.map (fun d => d.node_id) := by
            intro x hx
            have hthis := hR2 x hx
            rw [hEseen] at hthis
            exact hthis
          constructor
          · rw [List.map_cons, node_to_document_id, List.nodup_cons]
            constructor
            · rw [List.map_append, List.mem_append]
              rintro (hmem | hmem)
              · exact hE2 _ hmem (by simp)
              · exact hnotE2 _ hmem (by simp)
            · rw [List.map_append, List.nodup_append]
              refine ⟨hE1, hR1, ?_⟩
              intro x hxE hxR
              exact hnotE2 x hxR (by simp [hxE])
          · intro x hx
            rw [List.map_cons, node_to_document_id, List.mem_cons,
              List.map_append, List.mem_append] at hx
            rcases hx with rfl | hx | hx
            · exact h
            · intro hxseen
              exact hE2 x hx (List.mem_append_left _ hxseen)
            · intro hxseen
              exact hnotE2 x hx (by simp [hxseen])
        · obtain ⟨hR1, hR2⟩ := ih (seen ++ [s.row.id])
          simp only [retrieveLoop, if_neg h, if_neg hhop, List.map_cons,
            node_to_document_id, List.nodup_cons, List.mem_cons]
          refine ⟨⟨?_, hR1⟩, ?_⟩
          · intro hmem
            exact hR2 _ hmem (by simp)
          · rintro x (rfl | hx)
            · exact h
            · intro hxseen
              exact hR2 x hx (List.mem_append_left _ hxseen)

theorem retrieveLoop_vector_sublist (store : KGStore) (cfg : RetrieverConfig) :
    ∀ (seeds : List SeedRow) (seen : List String),
      (((retrieveLoop store cfg seeds seen).filter
          (fun d => d.source == "vector")).map (fun d => d.node_id)).Sublist
        (seeds.map (fun s => s.row.id)) := by
  intro seeds
  induction seeds with
  | nil => intro seen; simp [retrieveLoop]
  | cons s rest ih =>
      intro seen
      by_cases h : s.row.id ∈ seen
      · simp only [retrieveLoop, if_pos h, List.map_cons]
        exact (ih seen).cons _
      · by_cases hhop : 1 ≤ cfg.hop_limit
        · simp only [retrieveLoop, if_neg h, if_pos hhop, List.filter_cons,
            List.filter_append, expandNodes_filter_vector, List.nil_append,
            node_to_document_source, beq_self_eq_true, if_pos, List.map_cons,
            node_to_document_id]
          exact (ih _).cons₂ _
        · simp only [retrieveLoop, if_neg h, if_neg hhop, List.filter_cons,
            node_to_document_source, beq_self_eq_true, if_pos, List.map_cons,
            node_to_document_id]
          exact (ih _).cons₂ _

theorem retrieveLoop_provenance (store : KGStore) (cfg : RetrieverConfig) :
    ∀ (seeds : List SeedRow) (seen : List String),
      ∀ d ∈ retrieveLoop store cfg seeds seen,
        d.source = "vector" ∨
        (d.source = "graph_expansion" ∧
          ∃ s ∈ seeds, d.node_id ∈ get_neighbour_ids store cfg s.row.id) := by
  intro seeds
  induction seeds with
  | nil => intro seen d hd; simp [retrieveLoop] at hd
  | cons s rest ih =>
      intro seen d hd
      by_cases h : s.row.id ∈ seen
      · simp only [retrieveLoop, if_pos h] at hd
        rcases ih seen d hd with h1 | ⟨h2, s', hs', hmem⟩
        · exact Or.inl h1
        · exact Or.inr ⟨h2, s', List.mem_cons_of_mem _ hs', hmem⟩
      · by_cases hhop : 1 ≤ cfg.hop_limit
        · simp only [retrieveLoop, if_neg h, if_pos hhop, List.mem_cons,
            List.mem_append] at hd
          rcases hd with rfl | hd | hd
          · exact Or.inl rfl
          · obtain ⟨nb, hnb, rfl⟩ := expandNodes_mem store _ _ d hd
            refine Or.inr ⟨rfl, s, List.mem_cons_self s rest, ?_⟩
            have h1 := mem_fetch_nodes_by_ids hnb
            rw [node_to_document_id]
            exact (List.mem_filter.mp h1).1
          · rcases ih _ d hd with h1 | ⟨h2, s', hs', hmem⟩
            · exact Or.inl h1
            · exact Or.inr ⟨h2, s', List.mem_cons_of_mem _ hs', hmem⟩
        · simp only [retrieveLoop, if_neg h, if_neg hhop, List.mem_cons] at hd
          rcases hd with rfl | hd
          · exact Or.inl rfl
          · rcases ih _ d hd with h1 | ⟨h2, s', hs', hmem⟩
            · exact Or.inl h1
            · exact Or.inr ⟨h2, s', List.mem_cons_of_mem _ hs', hmem⟩

theorem retrieveLoop_no_expand (store : KGStore) (cfg : RetrieverConfig)
    (hhop : ¬ 1 ≤ cfg.hop_limit) :
    ∀ (seeds : List SeedRow) (seen : List String),
      ((seeds.map (fun s => s.row.id)).Nodup) →
      (∀ s ∈ seeds, s.row.id ∉ seen) →
      retrieveLoop store cfg seeds seen =
        seeds.map (fun s => node_to_document store s.row s.similarity "vector") := by
  intro seeds
  induction seeds with
  | nil => intro seen _ _; rfl
  | cons s rest ih =>
      intro seen hnd hdisj
      have hs : s.row.id ∉ seen := hdisj s (List.mem_cons_self s rest)
      rw [List.map_cons, List.nodup_cons] at hnd
      simp only [retrieveLoop, if_neg hs, if_neg hhop, List.map_cons]
      congr 1
      apply ih (seen ++ [s.row.id]) hnd.2
      intro t ht hmem
      rcases List.mem_append.mp hmem with hmem1 | hmem2
      · exact hdisj t (List.mem_cons_of_mem _ ht) hmem1
      · rw [List.mem_singleton] at hmem2
        exact hnd.1 (hmem2 ▸ List.mem_map.mpr ⟨t, ht, rfl⟩)

theorem retrieveLoop_seeds_only (store : KGStore) (cfg : RetrieverConfig)
    (hF : ∀ (nid : String) (sn : List String),
      fetch_nodes_by_ids store cfg
        ((get_neighbour_ids store cfg nid).filter
          (fun x => decide (x ∉ sn ++ [nid]))) = []) :
    ∀ (seeds : List SeedRow) (seen : List String),
      ((seeds.map (fun s => s.row.id)).Nodup) →
      (∀ s ∈ seeds, s.row.id ∉ seen) →
      retrieveLoop store cfg seeds seen =
        seeds.map (fun s => node_to_document store s.row s.similarity "vector") := by
  intro seeds
  induction seeds with
  | nil => intro seen _ _; rfl
  | cons s rest ih =>
      intro seen hnd hdisj
      have hs : s.row.id ∉ seen := hdisj s (List.mem_cons_self s rest)
      rw [List.map_cons, List.nodup_cons] at hnd
      have hdisj2 : ∀ t ∈ rest, t.row.id ∉ seen ++ [s.row.id] := by
        intro t ht hmem
        rcases List.mem_append.mp hmem with hmem1 | hmem2
        · exact hdisj t (List.mem_cons_of_mem _ ht) hmem1
        · rw [List.mem_singleton] at hmem2
          exact hnd.1 (hmem2 ▸ List.mem_map.mpr ⟨t, ht, rfl⟩)
      by_cases hhop : 1 ≤ cfg.hop_limit
      · simp only [retrieveLoop, if_neg hs, if_pos hhop, hF s.row.id seen,
          expandNodes, List.nil_append, List.map_cons]
        congr 1
        exact ih (seen ++ [s.row.id]) hnd.2 hdisj2
      · simp only [retrieveLoop, if_neg hs, if_neg hhop, List.map_cons]
        congr 1
        exact ih (seen ++ [s.row.id]) hnd.2 hdisj2

/-! ### Claim theorems for retrieval -/

/-- A minimal active node row scoped to tenant `t`. -/
def exNode (i : String) : KGNodeRow :=
  ⟨i, "key:" ++ i, "Node " ++ i, "Chunk", none, none, none, none, "t", "active"⟩

/-- Retriever config for the concrete retrieval examples (tenant `t`,
client `c`, one expansion hop, every edge weight qualifies). -/
def exCfg : RetrieverConfig :=
  { tenant_id := "t", client_id := "c", hop_limit := 1, min_edge_weight := 0 }

/-- Store for the C3 counterexample: one seed `s`; edges `s→a` (weight 2)
and `s→b` (weight 1); the node table lists `b` BEFORE `a`. -/
def c3Store : KGStore where
  search_result := .ok [⟨exNode "s", some 1⟩]
  edge_table := .ok [⟨"t", "c", "s", "a", 2, true⟩, ⟨"t", "c", "s", "b", 1, true⟩]
  node_table := .ok [exNode "b", exNode "a"]
  chunk_content := fun _ => none

/-- Counterexample to C3: the edge query does order the neighbour ids of
`s` descending by weight (`["a", "b"]`, weights 2 > 1), but
`_fetch_nodes_by_ids` has no ORDER BY, so the fetched rows come back in
store order and the returned sequence is `s, b, a` — the expansion nodes
of the seed are NOT in descending edge-weight order (the claim would force
`s, a, b`). -/
theorem retrieval_expansion_order_cex :
    get_neighbour_ids c3Store exCfg "s" = ["a", "b"] ∧
    (get_relevant_documents c3Store exCfg).map (fun d => d.node_id) = ["s", "b", "a"] ∧
    ¬ ((get_relevant_documents c3Store exCfg).map (fun d => d.node_id) =
        ["s", "a", "b"]) := by
  refine ⟨by decide, by decide, by decide⟩

/-- C3 (amended): the returned sequence contains no node id twice (first
occurrence wins); its `vector`-tagged documents appear in vector-search
order (a sublist of the seed id sequence); and every other document is
tagged `graph_expansion` and is a fetched neighbour of one of the seeds.
(Within a seed's expansion group the order is the node-table order of the
batch fetch, not descending edge weight — see the counterexample.) -/
theorem retrieval_dedup_and_provenance (store : KGStore) (cfg : RetrieverConfig) :
    ((get_relevant_documents store cfg).map (fun d => d.node_id)).Nodup ∧
    (((get_relevant_documents store cfg).filter
        (fun d => d.source == "vector")).map (fun d => d.node_id)).Sublist
      ((vector_search store).map (fun s => s.row.id)) ∧
    ∀ d ∈ get_relevant_documents store cfg,
      d.source = "vector" ∨
      (d.source = "graph_expansion" ∧
        ∃ s ∈ vector_search store,
          d.node_id ∈ get_neighbour_ids store cfg s.row.id) :=
  ⟨(retrieveLoop_nodup store cfg (vector_search store) []).1,
   retrieveLoop_vector_sublist store cfg (vector_search store) [],
   retrieveLoop_provenance store cfg (vector_search store) []⟩

/-- C4: with `hop_limit = 0` the call returns exactly the documents built
from the seed rows, in search order, independently of the edge and node
tables (no edge fetch or node batch fetch can influence the result). -/
theorem retrieve_hop_zero_seeds_only (store : KGStore)
    (et : Except String (List KGEdgeRow)) (nt : Except String (List KGNodeRow))
    (cfg : RetrieverConfig) (hhop : cfg.hop_limit = 0)
    (hnd : ((vector_search store).map (fun s => s.row.id)).Nodup) :
    get_relevant_documents { store with edge_table := et, node_table := nt } cfg =
      (vector_search store).map
        (fun s => node_to_document store s.row s.similarity "vector") := by
  have hh : ¬ 1 ≤ cfg.hop_limit := by omega
  have hret := retrieveLoop_no_expand
    { store with edge_table := et, node_table := nt } cfg hh
    (vector_search store) [] hnd (by simp)
  exact hret

/-- Store for the hop-limit-0 witness: two seeds, no graph data needed. -/
def c4Store : KGStore where
  search_result := .ok [⟨exNode "a", some 1⟩, ⟨exNode "b", some 0⟩]
  edge_table := .ok []
  node_table := .ok []
  chunk_content := fun _ => none

/-- Retriever config with `hop_limit = 0`. -/
def hopZeroCfg : RetrieverConfig :=
  { tenant_id := "t", client_id := "c", hop_limit := 0, min_edge_weight := 0 }

theorem retrieve_hop_zero_seeds_only_witness :
    (hopZeroCfg.hop_limit = 0 ∧
      ((vector_search c4Store).map (fun s => s.row.id)).Nodup) ∧
    get_relevant_documents
        { c4Store with edge_table := .error "down", node_table := .error "down" }
        hopZeroCfg =
      (vector_search c4Store).map
        (fun s => node_to_document c4Store s.row s.similarity "vector") := by
  have h0 : hopZeroCfg.hop_limit = 0 := rfl
  have hnd : ((vector_search c4Store).map (fun s => s.row.id)).Nodup := by decide
  exact ⟨⟨h0, hnd⟩,
    retrieve_hop_zero_seeds_only c4Store (.error "down") (.error "down")
      hopZeroCfg h0 hnd⟩

/-- Store whose vector-search RPC raises. -/
def c8StoreDown : KGStore where
  search_result := .error "store unreachable"
  edge_table := .ok []
  node_table := .ok []
  chunk_content := fun _ => none

/-- Store whose edge query raises but whose vector search succeeds. -/
def c8StoreEdgeDown : KGStore where
  search_result := .ok [⟨exNode "s", some 1⟩]
  edge_table := .error "edge fetch failed"
  node_table := .ok [exNode "n"]
  chunk_content := fun _ => none

/-- Counterexample to C8: the retriever catches upstream store failures
instead of surfacing them.  With the vector query raising, the call
returns an ordinary empty list; with the edge fetch raising, it returns
the seed documents as if the seed simply had no neighbours.  No failure
reaches the caller. -/
theorem retrieval_store_error_swallowed_cex :
    get_relevant_documents c8StoreDown exCfg = [] ∧
    (get_relevant_documents c8StoreEdgeDown exCfg).map (fun d => d.node_id) =
      ["s"] := by
  refine ⟨rfl, by decide⟩

/-- C8 (amended): upstream store failures are caught inside the retriever
(`try/except` returning `[]`): a failed vector query yields an empty
result, and a failed edge fetch or node batch fetch yields exactly the
seed documents with no expansion — the call returns normally and nothing
is retried or re-raised. -/
theorem retrieval_store_error_empty (store : KGStore) (cfg : RetrieverConfig)
    (msg : String) :
    (store.search_result = .error msg → get_relevant_documents store cfg = []) ∧
    (store.edge_table = .error msg →
      ((vector_search store).map (fun s => s.row.id)).Nodup →
      get_relevant_documents store cfg =
        (vector_search store).map
          (fun s => node_to_document store s.row s.similarity "vector")) ∧
    (store.node_table = .error msg →
      ((vector_search store).map (fun s => s.row.id)).Nodup →
      get_relevant_documents store cfg =
        (vector_search store).map
          (fun s => node_to_document store s.row s.similarity "vector")) := by
  refine ⟨?_, ?_, ?_⟩
  · intro herr
    unfold get_relevant_documents
    rw [show vector_search store = [] from by simp [vector_search, herr]]
    rfl
  · intro herr hnd
    have hF : ∀ (nid : String) (sn : List String),
        fetch_nodes_by_ids store cfg
          ((get_neighbour_ids store cfg nid).filter
            (fun x => decide (x ∉ sn ++ [nid]))) = [] := by
      intro nid sn
      rw [show get_neighbour_ids store cfg nid = [] from by
        simp [get_neighbour_ids, herr]]
      rfl
    exact retrieveLoop_seeds_only store cfg hF (vector_search store) [] hnd (by simp)
  · intro herr hnd
    have hF : ∀ (nid : String) (sn : List String),
        fetch_nodes_by_ids store cfg
          ((get_neighbour_ids store cfg nid).filter
            (fun x => decide (x ∉ sn ++ [nid]))) = [] := by
      intro nid sn
      by_cases hids : (get_neighbour_ids store cfg nid).filter
          (fun x => decide (x ∉ sn ++ [nid])) = []
      · rw [hids]; rfl
      · simp [fetch_nodes_by_ids, hids, herr]
    exact retrieveLoop_seeds_only store cfg hF (vector_search store) [] hnd (by simp)

theorem retrieval_store_error_empty_witness :
    c8StoreDown.search_result = .error "store unreachable" ∧
    get_relevant_documents c8StoreDown exCfg = [] :=
  ⟨rfl, (retrieval_store_error_empty c8StoreDown exCfg "store unreachable").1 rfl⟩

end KG
